import Mathlib

/-!
Verification development for the codehn story aggregator (src/main.go).

The Go program is embedded shallowly:

* pure computations (the eligibility substring test of line 135, the item
  URL construction of line 116, the result cache contract) become Lean
  functions;
* the concurrent aggregation loop of getStories (lines 77-150) becomes a
  small-step relation AggStep on an explicit state, whose traces are the
  interleavings of the orchestrating loop and the spawned fetch goroutines;
* external collaborators (the HTTP client, encoding/json, net/url,
  go-humanize, go-cache) are oracle parameters collected in Env, or, for
  the cache, a model written from the spec since the library is a vendored
  dependency outside src/.
-/

set_option linter.unusedVariables false

/-- The story record decoded from the HN item endpoint (src/main.go lines
46-58).  The Go field `Type` is spelled `type_` because `Type` is reserved
in Lean; all other field names match the source. -/
structure story where
  By : String
  Descendants : Int
  ID : Int
  Kids : List Int
  Score : Int
  Time : Int
  Title : String
  type_ : String
  URL : String
  DomainName : String
  HumanTime : String
  deriving DecidableEq

/-- stories is just a bunch of story (pointers elided): src/main.go line 61. -/
abbrev stories : Type := List story

/-- Helper for the substring test: isPre pat s is true when pat is a
character-exact leading run of s. -/
def isPre : List Char → List Char → Bool
  | [], _ => true
  | _ :: _, [] => false
  | a :: as, b :: bs => a == b && isPre as bs

/-- Helper for the substring test: hasSub s pat is true when pat occurs
contiguously somewhere in s. -/
def hasSub : List Char → List Char → Bool
  | [], pat => isPre pat []
  | c :: t, pat => isPre pat (c :: t) || hasSub t pat

/-- Embedding of Go strings.Contains(s, sub): sub occurs as a contiguous
substring of s. -/
def goContains (s sub : String) : Bool :=
  hasSub s.data sub.data

/-- The eligibility condition of src/main.go line 135:
strings.Contains(s.URL, "github") || strings.Contains(s.URL, "gitlab"). -/
def eligibleURL (u : String) : Bool :=
  goContains u "github" || goContains u "gitlab"

/-- The specification-language reading of "the link URL contains the
substring pat": some decomposition l ++ pat ++ r of the characters of the URL. -/
def SpecContains (s pat : String) : Prop :=
  ∃ l r, s.data = l ++ pat.data ++ r

/-- baseURL from src/main.go line 26. -/
def baseURL : String := "https://hacker-news.firebaseio.com/v0/"

/-- The URL built for one item fetch, src/main.go line 116:
fmt.Sprintf(baseURL+"v0/item/%d.json", storyKey). -/
def itemURL (storyKey : Int) : String :=
  baseURL ++ "v0/item/" ++ toString storyKey ++ ".json"

/-- Modelled from the spec: the ResultCache TTL (§4.6; default 30 minutes,
expressed in nanoseconds as 30*time.Minute in Go).  The cache itself is the
external go-cache dependency, whose source is not under src/. -/
def defaultExpiration : Int := 30 * 60 * 1000000000

/-- Modelled from the spec: the ResultCache store (§4.6) maps a feed-type
key to a stored sequence together with its absolute expiry instant. -/
def TTLCache : Type := String → Option (stories × Int)

/-- The empty cache, the state of `cash` right after init (src/main.go
line 38). -/
def cash0 : TTLCache := fun _ => none

/-- Modelled from the spec: ResultCache Set (§4.6) stores the sequence with
expiry = now + TTL, replacing any previous entry for the key wholesale. -/
def cacheSet (c : TTLCache) (k : String) (v : stories) (now : Int) : TTLCache :=
  fun q => if q = k then some (v, now + defaultExpiration) else c q

/-- Modelled from the spec: ResultCache Get (§4.6) returns the stored
sequence unless the entry is absent or past its expiry at read time (an
entry is expired when now is strictly past the expiry instant, as in the
UnixNano comparison of the library). -/
def cacheGet (c : TTLCache) (k : String) (now : Int) : Option stories :=
  match c k with
  | none => none
  | some (v, e) => if e < now then none else some v

/-- The three ways one item fetch can fail inside a goroutine
(src/main.go lines 117-132): the HTTP GET, the body read, the JSON decode. -/
inductive ItemFetchErr where
  | httpErr
  | readErr
  | jsonErr
  deriving DecidableEq

/-- Oracle parameters standing for the external collaborators used by
getStories.  fetchItem is the composite http.Get / ReadAll / Unmarshal for
one key (lines 117-132); parseHost is url.Parse followed by Hostname, none
meaning the parse returned an error (lines 137-140); humanizeTime is
humanize.Time of the Unix time of the story at the fetch instant (line 136);
decodeKeys is json.Unmarshal of the list body into []int, none meaning the
decode returned an error (line 74). -/
structure Env where
  fetchItem : Int → Except ItemFetchErr story
  parseHost : String → Option String
  humanizeTime : Int → String
  decodeKeys : String → Option (List Int)

/-- The enrichment performed on an eligible story, src/main.go lines
136-140: HumanTime is set, and DomainName is set only when url.Parse
succeeds (otherwise it keeps its decoded value). -/
def enrich (env : Env) (s : story) : story :=
  { s with
    HumanTime := env.humanizeTime s.Time,
    DomainName :=
      match env.parseHost s.URL with
      | some h => h
      | none => s.DomainName }

/-- The filter step of src/main.go lines 134-142, applied to a decoded
story: eligible stories are enriched and appended, others are dropped. -/
def filterEnrich (env : Env) (s : story) : Option story :=
  if eligibleURL s.URL then some (enrich env s) else none

/-- The whole body of one fetch goroutine after it holds a semaphore slot
(src/main.go lines 115-142): some enriched story exactly when the fetch
succeeded and the story is eligible; none when any of the three fetch steps
failed (the goroutine just returns) or the story is ineligible. -/
def taskBody (env : Env) (k : Int) : Option story :=
  match env.fetchItem k with
  | .error _ => none
  | .ok s => filterEnrich env s

/-- State of one aggregation run of getStories (lines 77-150).

* keysLeft: identifiers the loop has not yet reached (the break of line 90
  empties it);
* spawned: goroutines launched by line 97 that have not yet executed their
  wg.Add(1) — the Add is inside the goroutine (line 100), so these are
  invisible to wg.Wait;
* waiting: goroutines past wg.Add, blocked sending on the semaphore
  (line 103);
* running: goroutines holding a semaphore slot, i.e. executing their
  fetch-and-filter work (lines 106-142);
* acc: the shared stories slice (line 83).

The 10 ms sleep of line 94 is untimed; the loop check and the go statement
are taken as one step. -/
structure AggState where
  keysLeft : List Int
  spawned : List Int
  waiting : List Int
  running : List Int
  acc : stories
  deriving DecidableEq

/-- Initial state of a run over a decoded key list (line 86). -/
def initState (keys : List Int) : AggState :=
  ⟨keys, [], [], [], []⟩

/-- One interleaving step of the aggregation run.

* launch: the loop check len(stories) >= 30 fails, so the
  goroutine of the next key is launched (lines 89-97);
* stop: the check succeeds and the loop breaks (lines 89-91);
* wgAdd: a launched goroutine executes wg.Add(1) (line 100);
* acquire: a goroutine sends on the semaphore, possible only while fewer
  than 10 slots are taken (line 103);
* finish: a running goroutine completes its fetch-and-filter work,
  appending its story if the fetch succeeded and was eligible, then
  releases its slot and calls wg.Done (lines 106-144).  The append is one
  step here; the lost-update behaviour of the unsynchronized append is
  modelled separately by RaceStep. -/
inductive AggStep (env : Env) : AggState → AggState → Prop
  | launch (k : Int) (ks sp w rn : List Int) (acc : stories) :
      acc.length < 30 →
      AggStep env ⟨k :: ks, sp, w, rn, acc⟩ ⟨ks, k :: sp, w, rn, acc⟩
  | stop (k : Int) (ks sp w rn : List Int) (acc : stories) :
      30 ≤ acc.length →
      AggStep env ⟨k :: ks, sp, w, rn, acc⟩ ⟨[], sp, w, rn, acc⟩
  | wgAdd (ks l : List Int) (k : Int) (r w rn : List Int) (acc : stories) :
      AggStep env ⟨ks, l ++ k :: r, w, rn, acc⟩ ⟨ks, l ++ r, k :: w, rn, acc⟩
  | acquire (ks sp l : List Int) (k : Int) (r rn : List Int) (acc : stories) :
      rn.length < 10 →
      AggStep env ⟨ks, sp, l ++ k :: r, rn, acc⟩ ⟨ks, sp, l ++ r, k :: rn, acc⟩
  | finish (ks sp w l : List Int) (k : Int) (r : List Int) (acc : stories) :
      AggStep env ⟨ks, sp, w, l ++ k :: r, acc⟩
        ⟨ks, sp, w, l ++ r, acc ++ (taskBody env k).toList⟩

/-- Reachability along interleaving steps. -/
def Reachable (env : Env) : AggState → AggState → Prop :=
  Relation.ReflTransGen (AggStep env)

/-- getStories may return in a state where the loop has ended and
wg.Wait() observes a zero counter.  Goroutines still in spawned have not
executed wg.Add(1) yet (it is called inside the goroutine, line 100), so
they do not hold the Wait back. -/
def canReturn (s : AggState) : Prop :=
  s.keysLeft = [] ∧ s.waiting = [] ∧ s.running = []

/-- The aggregation phase of getStories can return the slice out for the
key list keys: some interleaving reaches a state where the loop is done and
wg.Wait passes, with out the value of the stories slice at that moment. -/
def Returns (env : Env) (keys : List Int) (out : stories) : Prop :=
  ∃ s, Reachable env (initState keys) s ∧ canReturn s ∧ s.acc = out

/-- The aggregation loop of getStories under the sequential schedule in
which each launched goroutine runs to completion before the loop proceeds:
the same per-key work as the step relation, one key at a time. -/
def getStoriesSeq (env : Env) : List Int → stories → stories
  | [], acc => acc
  | k :: ks, acc =>
    if 30 ≤ acc.length then acc
    else getStoriesSeq env ks (acc ++ (taskBody env k).toList)

/-- The stories produced when every listed goroutine completes, in list
order — the outcome of the schedule that first launches every goroutine and
only then lets them run. -/
def collectAll (env : Env) : List Int → stories
  | [] => []
  | k :: ks => (taskBody env k).toList ++ collectAll env ks

/-- The part of getStories before the loop (src/main.go lines 64-74),
relating the ioutil.ReadAll outcome for the list body to the function
result.  A read failure is returned as the error (lines 67-70).  The
json.Unmarshal error of line 74 is discarded by the source, so an
undecodable body leaves keys as its zero value nil and the run proceeds
with no keys. -/
def GetStoriesBehav (env : Env) (bodyRes : Except String String)
    (r : Except String stories) : Prop :=
  match bodyRes with
  | .error e => r = .error e
  | .ok body =>
      ∃ out, Returns env ((env.decodeKeys body).getD []) out ∧ r = .ok out

/-- Outcome of the identifier-list HTTP fetch in getStoriesFromType
(src/main.go lines 167-172): the GET itself can fail, otherwise getStories
receives the response and its body read can fail or produce a body. -/
inductive ListFetch where
  | getFailed
  | got (bodyRes : Except String String)

/-- getStoriesFromType (src/main.go lines 154-179): a failed GET maps to
the "posts list" error, a getStories error maps to the "posts data" error,
otherwise the stories are returned. -/
def GetStoriesFromTypeBehav (env : Env) (pageType : String) (lf : ListFetch)
    (r : Except String stories) : Prop :=
  match lf with
  | .getFailed => r = .error ("could not get " ++ pageType ++ " hacker news posts list")
  | .got bodyRes =>
      ∃ r2, GetStoriesBehav env bodyRes r2 ∧
        match r2 with
        | .error _ => r = .error ("could not get " ++ pageType ++ " hacker news posts data")
        | .ok out => r = .ok out

/-- What pageHandler writes for one request: a rendered page or a 500 with
the error text (src/main.go lines 209-221; template handling after the
cache write is outside the engine and not modelled). -/
inductive PageResp where
  | html (ss : stories)
  | code500 (msg : String)
  deriving DecidableEq

/-- One pass of the handler body (src/main.go lines 189-242) at time now:
on a cache hit the cached stories are served and the cache is untouched; on
a miss the aggregation result r decides between a 500 with no cache write
(lines 213-217) and a cache Set followed by the page (lines 220-241). -/
def PageHandlerBehav (env : Env) (pageType : String) (lf : ListFetch)
    (now : Int) (c : TTLCache) (out : PageResp × TTLCache) : Prop :=
  match cacheGet c pageType now with
  | some v => out = (.html v, c)
  | none =>
      ∃ r, GetStoriesFromTypeBehav env pageType lf r ∧
        match r with
        | .error e => out = (.code500 e, c)
        | .ok s => out = (.html s, cacheSet c pageType s now)

/-- The view one goroutine has of the unsynchronized slice append of src/main.go
line 141.  In Go, stories = append(stories, s) first reads the current slice
header and then writes back the extended slice, so between concurrent
goroutines it is a read step followed by a write step. -/
inductive AppendTask where
  | toRead (s : story)
  | toWrite (snap : stories) (s : story)
  | done
  deriving DecidableEq

/-- Shared slice plus two goroutines about to append to it. -/
structure RaceState where
  shared : stories
  t1 : AppendTask
  t2 : AppendTask
  deriving DecidableEq

/-- Interleaving semantics of two concurrent executions of
stories = append(stories, s): each execution reads the slice, then writes
its own extension of what it read. -/
inductive RaceStep : RaceState → RaceState → Prop
  | read1 (sh : stories) (s : story) (t2 : AppendTask) :
      RaceStep ⟨sh, .toRead s, t2⟩ ⟨sh, .toWrite sh s, t2⟩
  | write1 (sh snap : stories) (s : story) (t2 : AppendTask) :
      RaceStep ⟨sh, .toWrite snap s, t2⟩ ⟨snap ++ [s], .done, t2⟩
  | read2 (sh : stories) (t1 : AppendTask) (s : story) :
      RaceStep ⟨sh, t1, .toRead s⟩ ⟨sh, t1, .toWrite sh s⟩
  | write2 (sh : stories) (t1 : AppendTask) (snap : stories) (s : story) :
      RaceStep ⟨sh, t1, .toWrite snap s⟩ ⟨snap ++ [s], t1, .done⟩

/-- A concrete decoded story whose link is a github URL. -/
def ghStory : story :=
  ⟨"user", 0, 1, [], 1, 0, "t", "story", "https://github.com/x/y", "", ""⟩

/-- A second concrete decoded story with a gitlab URL. -/
def glStory : story :=
  ⟨"user2", 0, 2, [], 1, 0, "u", "story", "https://gitlab.com/a/b", "", ""⟩

/-- An environment in which every item fetch succeeds with the same
eligible story and every URL parse fails. -/
def env31 : Env :=
  ⟨fun _ => .ok ghStory, fun _ => none, fun _ => "", fun _ => none⟩

/-- An environment in which every item fetch fails at the HTTP request. -/
def envErr : Env :=
  ⟨fun _ => .error .httpErr, fun _ => none, fun _ => "", fun _ => some []⟩

/-- 31 distinct identifiers, one more than the target count. -/
def keys31 : List Int := (List.range 31).map (fun n => (n : Int))

/-- 30 distinct identifiers, exactly the target count. -/
def keys30 : List Int := (List.range 30).map (fun n => (n : Int))

example : eligibleURL "https://github.com/x/y" = true := by decide
example : eligibleURL "https://example.com" = false := by decide
example : eligibleURL "https://notgithub.example" = true := by decide
example : itemURL 8863 = "https://hacker-news.firebaseio.com/v0/v0/item/8863.json" := by decide
example : taskBody env31 5 = some (enrich env31 ghStory) := by rfl
example : taskBody envErr 5 = none := by rfl

theorem isPre_iff (pat : List Char) : ∀ s : List Char,
    isPre pat s = true ↔ ∃ r, s = pat ++ r := by
  induction pat with
  | nil => intro s; simp [isPre]
  | cons a as ih =>
    intro s
    cases s with
    | nil =>
      simp [isPre]
    | cons b bs =>
      constructor
      · intro h
        simp only [isPre, Bool.and_eq_true, beq_iff_eq] at h
        obtain ⟨hab, h2⟩ := h
        obtain ⟨r, hr⟩ := (ih bs).mp h2
        exact ⟨r, by simp [hab, hr]⟩
      · rintro ⟨r, hr⟩
        rw [List.cons_append] at hr
        injection hr with h1 h2
        simp only [isPre, Bool.and_eq_true, beq_iff_eq]
        exact ⟨h1.symm, (ih bs).mpr ⟨r, h2⟩⟩

theorem hasSub_iff : ∀ s pat : List Char,
    hasSub s pat = true ↔ ∃ l r, s = l ++ pat ++ r := by
  intro s
  induction s with
  | nil =>
    intro pat
    rw [hasSub, isPre_iff]
    constructor
    · rintro ⟨r, hr⟩; exact ⟨[], r, by simpa using hr⟩
    · rintro ⟨l, r, hr⟩
      have h2 := hr.symm
      rw [List.append_assoc, List.append_eq_nil] at h2
      exact ⟨r, by simp [h2.1, h2.2]⟩
  | cons c t ih =>
    intro pat
    rw [hasSub, Bool.or_eq_true, isPre_iff, ih]
    constructor
    · rintro (⟨r, hr⟩ | ⟨l, r, hr⟩)
      · exact ⟨[], r, by simpa using hr⟩
      · exact ⟨c :: l, r, by simp [hr]⟩
    · rintro ⟨l, r, hr⟩
      cases l with
      | nil => exact Or.inl ⟨r, by simpa using hr⟩
      | cons d l2 =>
        rw [List.cons_append, List.cons_append] at hr
        injection hr with h1 h2
        exact Or.inr ⟨l2, r, h2⟩

theorem goContains_iff (s sub : String) :
    goContains s sub = true ↔ SpecContains s sub :=
  hasSub_iff s.data sub.data

theorem running_le_preserved {env : Env} {s t : AggState}
    (h : AggStep env s t) (hs : s.running.length ≤ 10) :
    t.running.length ≤ 10 := by
  cases h with
  | launch k ks sp w rn acc h1 => exact hs
  | stop k ks sp w rn acc h1 => exact hs
  | wgAdd ks l k r w rn acc => exact hs
  | acquire ks sp l k r rn acc h1 =>
    simp only [List.length_cons]
    omega
  | finish ks sp w l k r acc =>
    simp only [List.length_append, List.length_cons] at hs ⊢
    omega

/-- Size measure of a run state: stories collected so far plus goroutines
in flight plus identifiers not yet reached. -/
def aggSize (s : AggState) : Nat :=
  s.acc.length + s.spawned.length + s.waiting.length +
    s.running.length + s.keysLeft.length

theorem aggSize_step {env : Env} {s t : AggState}
    (h : AggStep env s t) : aggSize t ≤ aggSize s := by
  cases h with
  | launch k ks sp w rn acc h1 =>
    simp only [aggSize, List.length_cons]
    omega
  | stop k ks sp w rn acc h1 =>
    simp only [aggSize, List.length_cons, List.length_nil]
    omega
  | wgAdd ks l k r w rn acc =>
    simp only [aggSize, List.length_append, List.length_cons]
    omega
  | acquire ks sp l k r rn acc h1 =>
    simp only [aggSize, List.length_append, List.length_cons]
    omega
  | finish ks sp w l k r acc =>
    cases h2 : taskBody env k <;>
      simp only [aggSize, h2, Option.toList_some, Option.toList_none,
        List.length_append, List.length_cons, List.length_nil] <;>
      omega

theorem aggSize_reach {env : Env} {s0 s : AggState}
    (h : Reachable env s0 s) : aggSize s ≤ aggSize s0 := by
  induction h with
  | refl => exact le_refl _
  | tail h1 h2 ih => exact le_trans (aggSize_step h2) ih

/-- Every story in the shared slice came from a successful fetch of an
eligible story, enriched. -/
def FromFetch (env : Env) (st : story) : Prop :=
  ∃ k s2, env.fetchItem k = Except.ok s2 ∧ eligibleURL s2.URL = true ∧
    st = enrich env s2

theorem provenance_preserved {env : Env} {s t : AggState}
    (h : AggStep env s t) (hs : ∀ st ∈ s.acc, FromFetch env st) :
    ∀ st ∈ t.acc, FromFetch env st := by
  cases h with
  | launch k ks sp w rn acc h1 => exact hs
  | stop k ks sp w rn acc h1 => exact hs
  | wgAdd ks l k r w rn acc => exact hs
  | acquire ks sp l k r rn acc h1 => exact hs
  | finish ks sp w l k r acc =>
    intro st hst
    rcases List.mem_append.mp hst with h1 | h2
    · exact hs st h1
    · cases hfe : env.fetchItem k with
      | error e => simp [taskBody, hfe] at h2
      | ok s2 =>
        by_cases he : eligibleURL s2.URL = true
        · simp only [taskBody, hfe, filterEnrich, he, if_true,
            Option.toList_some, List.mem_singleton] at h2
          exact ⟨k, s2, hfe, he, h2⟩
        · simp [taskBody, hfe, filterEnrich, he] at h2

theorem provenance_reach {env : Env} {keys : List Int} {s : AggState}
    (h : Reachable env (initState keys) s) :
    ∀ st ∈ s.acc, FromFetch env st := by
  induction h with
  | refl => intro st hst; simp [initState] at hst
  | tail h1 h2 ih => exact provenance_preserved h2 ih

theorem seqTrace (env : Env) : ∀ (keys : List Int) (acc : stories),
    Reachable env ⟨keys, [], [], [], acc⟩
      ⟨[], [], [], [], getStoriesSeq env keys acc⟩ := by
  intro keys
  induction keys with
  | nil =>
    intro acc
    exact Relation.ReflTransGen.refl
  | cons k ks ih =>
    intro acc
    by_cases h : 30 ≤ acc.length
    · have st : AggStep env ⟨k :: ks, [], [], [], acc⟩ ⟨[], [], [], [], acc⟩ :=
        AggStep.stop k ks [] [] [] acc h
      have he : getStoriesSeq env (k :: ks) acc = acc := by
        simp [getStoriesSeq, h]
      rw [he]
      exact Relation.ReflTransGen.single st
    · have st1 : AggStep env ⟨k :: ks, [], [], [], acc⟩ ⟨ks, [k], [], [], acc⟩ :=
        AggStep.launch k ks [] [] [] acc (by omega)
      have st2 : AggStep env ⟨ks, [k], [], [], acc⟩ ⟨ks, [], [k], [], acc⟩ :=
        AggStep.wgAdd ks [] k [] [] [] acc
      have st3 : AggStep env ⟨ks, [], [k], [], acc⟩ ⟨ks, [], [], [k], acc⟩ :=
        AggStep.acquire ks [] [] k [] [] acc (by simp)
      have st4 : AggStep env ⟨ks, [], [], [k], acc⟩
          ⟨ks, [], [], [], acc ++ (taskBody env k).toList⟩ :=
        AggStep.finish ks [] [] [] k [] acc
      have tl := ih (acc ++ (taskBody env k).toList)
      have he : getStoriesSeq env (k :: ks) acc
          = getStoriesSeq env ks (acc ++ (taskBody env k).toList) := by
        simp [getStoriesSeq, h]
      rw [he]
      exact .head st1 (.head st2 (.head st3 (.head st4 tl)))

theorem returns_getStoriesSeq (env : Env) (keys : List Int) :
    Returns env keys (getStoriesSeq env keys []) :=
  ⟨⟨[], [], [], [], getStoriesSeq env keys []⟩, seqTrace env keys [],
    ⟨rfl, rfl, rfl⟩, rfl⟩

theorem getStoriesSeq_length (env : Env) : ∀ (keys : List Int) (acc : stories),
    (∀ k ∈ keys, (taskBody env k).isSome = true) → acc.length ≤ 30 →
    (getStoriesSeq env keys acc).length = min 30 (acc.length + keys.length) := by
  intro keys
  induction keys with
  | nil =>
    intro acc h1 h2
    simp only [getStoriesSeq, List.length_nil]
    omega
  | cons k ks ih =>
    intro acc h1 h2
    by_cases h : 30 ≤ acc.length
    · have h30 : acc.length = 30 := le_antisymm h2 h
      simp only [getStoriesSeq, if_pos h, List.length_cons]
      rw [h30, Nat.min_eq_left (by omega)]
    · have hk : (taskBody env k).isSome = true := h1 k (by simp)
      obtain ⟨v, hv⟩ := Option.isSome_iff_exists.mp hk
      have hlen : (acc ++ (taskBody env k).toList).length = acc.length + 1 := by
        rw [hv]
        simp
      have hrec := ih (acc ++ (taskBody env k).toList)
        (fun k2 hk2 => h1 k2 (by simp [hk2]))
        (by rw [hlen]; omega)
      rw [hlen] at hrec
      simp only [getStoriesSeq, if_neg h]
      rw [hrec]
      simp only [List.length_cons]
      omega

theorem launchAll (env : Env) : ∀ (keys sp : List Int) (acc : stories),
    acc.length < 30 →
    Reachable env ⟨keys, sp, [], [], acc⟩
      ⟨[], keys.reverse ++ sp, [], [], acc⟩ := by
  intro keys
  induction keys with
  | nil =>
    intro sp acc h
    simp only [List.reverse_nil, List.nil_append]
    exact Relation.ReflTransGen.refl
  | cons k ks ih =>
    intro sp acc h
    have st : AggStep env ⟨k :: ks, sp, [], [], acc⟩ ⟨ks, k :: sp, [], [], acc⟩ :=
      AggStep.launch k ks sp [] [] acc h
    have tl := ih (k :: sp) acc h
    have he : ks.reverse ++ (k :: sp) = (k :: ks).reverse ++ sp := by simp
    rw [he] at tl
    exact .head st tl

theorem runAll (env : Env) : ∀ (sp : List Int) (acc : stories),
    Reachable env ⟨[], sp, [], [], acc⟩
      ⟨[], [], [], [], acc ++ collectAll env sp⟩ := by
  intro sp
  induction sp with
  | nil =>
    intro acc
    simp only [collectAll, List.append_nil]
    exact Relation.ReflTransGen.refl
  | cons k sp2 ih =>
    intro acc
    have st1 : AggStep env ⟨[], k :: sp2, [], [], acc⟩ ⟨[], sp2, [k], [], acc⟩ :=
      AggStep.wgAdd [] [] k sp2 [] [] acc
    have st2 : AggStep env ⟨[], sp2, [k], [], acc⟩ ⟨[], sp2, [], [k], acc⟩ :=
      AggStep.acquire [] sp2 [] k [] [] acc (by simp)
    have st3 : AggStep env ⟨[], sp2, [], [k], acc⟩
        ⟨[], sp2, [], [], acc ++ (taskBody env k).toList⟩ :=
      AggStep.finish [] sp2 [] [] k [] acc
    have tl := ih (acc ++ (taskBody env k).toList)
    have he : (acc ++ (taskBody env k).toList) ++ collectAll env sp2
        = acc ++ collectAll env (k :: sp2) := by
      simp [collectAll, List.append_assoc]
    rw [he] at tl
    exact .head st1 (.head st2 (.head st3 tl))

theorem returns_collectAll (env : Env) (keys : List Int) :
    Returns env keys (collectAll env keys.reverse) := by
  refine ⟨⟨[], [], [], [], collectAll env keys.reverse⟩, ?_, ⟨rfl, rfl, rfl⟩, rfl⟩
  have h1 := launchAll env keys [] [] (by simp)
  simp only [List.append_nil] at h1
  have h2 := runAll env keys.reverse []
  simp only [List.nil_append] at h2
  exact h1.trans h2

theorem collectAll_length (env : Env) : ∀ l : List Int,
    (∀ k ∈ l, (taskBody env k).isSome = true) →
    (collectAll env l).length = l.length := by
  intro l
  induction l with
  | nil => intro h; rfl
  | cons k t ih =>
    intro h
    obtain ⟨v, hv⟩ := Option.isSome_iff_exists.mp (h k (by simp))
    simp [collectAll, hv, ih (fun x hx => h x (by simp [hx]))]

theorem no_step_done (env : Env) (acc : stories) (t : AggState) :
    ¬ AggStep env ⟨[], [], [], [], acc⟩ t := by
  intro h
  have hg : ∀ s0, AggStep env s0 t → s0.keysLeft = [] → s0.spawned = [] →
      s0.waiting = [] → s0.running = [] → False := by
    intro s0 h0
    cases h0 <;> intro h1 h2 h3 h4 <;> simp_all
  exact hg _ h rfl rfl rfl rfl

theorem returns_nil (env : Env) (out : stories) (h : Returns env [] out) :
    out = [] := by
  obtain ⟨s, hr, hc, he⟩ := h
  have hs : s = initState [] := by
    rcases Relation.ReflTransGen.cases_head hr with h1 | ⟨c, hc2, _⟩
    · exact h1.symm
    · exact absurd hc2 (no_step_done env [] c)
  rw [hs] at he
  exact he.symm

/-- Claim C4: the eligibility decision of src/main.go line 135 is true
exactly when the link URL contains the substring "github" or the substring
"gitlab"; in particular "https://github.com/x/y" is eligible,
"https://example.com" is not eligible, and "https://notgithub.example" is
eligible. -/
theorem C4_eligibility_characterization :
    (∀ u : String, eligibleURL u = true ↔
      (SpecContains u "github" ∨ SpecContains u "gitlab")) ∧
    eligibleURL "https://github.com/x/y" = true ∧
    eligibleURL "https://example.com" = false ∧
    eligibleURL "https://notgithub.example" = true := by
  refine ⟨?_, by decide, by decide, by decide⟩
  intro u
  rw [eligibleURL, Bool.or_eq_true, goContains_iff, goContains_iff]

/-- Claim C9 (refuted by the code): the item fetch does NOT request
<base>/item/<id>.json.  Line 116 prepends another "v0/" to baseURL, which
already ends in "/v0/", so the requested URL for identifier 8863 is
.../v0/v0/item/8863.json, a path that does not exist on the HN API, while
the list endpoints of getStoriesFromType use baseURL without the extra
segment. -/
theorem C9_item_url_doubled :
    itemURL 8863 = "https://hacker-news.firebaseio.com/v0/v0/item/8863.json" ∧
    itemURL 8863 ≠ baseURL ++ "item/8863.json" := by
  constructor
  · decide
  · decide

/-- Claim C7: a Set of the result cache followed by an immediate Get of the
same key returns the stored sequence; a Get more than the TTL (30 minutes)
after the Set misses; and any successful Get happens no later than TTL
after the Set, so no caller receives a value older than the TTL.  The cache
itself is modelled from the spec (§4.6) since go-cache is an external
dependency. -/
theorem C7_cache_ttl (c : TTLCache) (k : String) (v : stories) (now t : Int) :
    cacheGet (cacheSet c k v now) k now = some v ∧
    (now + defaultExpiration < t → cacheGet (cacheSet c k v now) k t = none) ∧
    (cacheGet (cacheSet c k v now) k t = some v →
      t ≤ now + defaultExpiration) := by
  have hd : (0 : Int) < defaultExpiration := by decide
  have hk : cacheSet c k v now k = some (v, now + defaultExpiration) := by
    simp [cacheSet]
  refine ⟨?_, ?_, ?_⟩
  · simp only [cacheGet, hk]
    rw [if_neg (by omega)]
  · intro h
    simp only [cacheGet, hk]
    rw [if_pos (by omega)]
  · intro h
    simp only [cacheGet, hk] at h
    by_cases ht : now + defaultExpiration < t
    · rw [if_pos ht] at h
      cases h
    · omega

/-- Witness for C7 at concrete inputs: set at time 0, read back at time 0,
then read again one instant past the TTL. -/
theorem C7_witness :
    cacheGet (cacheSet cash0 "top" [] 0) "top" 0 = some [] ∧
    cacheGet (cacheSet cash0 "top" [] 0) "top" (defaultExpiration + 1) = none :=
  ⟨(C7_cache_ttl cash0 "top" [] 0 0).1,
   (C7_cache_ttl cash0 "top" [] 0 (defaultExpiration + 1)).2.1 (by decide)⟩

/-- Claim C8: at every instant of every aggregation run, at most 10 fetch
tasks hold a semaphore slot, i.e. are concurrently executing their
fetch-and-filter work; a task acquires its slot (line 103) before fetching
and the step relation releases it whatever the fetch outcome (the defer of
lines 106-113). -/
theorem C8_concurrency_cap (env : Env) (keys : List Int) (s : AggState)
    (h : Reachable env (initState keys) s) : s.running.length ≤ 10 := by
  induction h with
  | refl => simp [initState]
  | tail h1 h2 ih => exact running_le_preserved h2 ih

/-- Witness for C8: a concrete three-step run of one key reaching a state
with one task holding a slot. -/
theorem C8_witness : (AggState.mk [] [] [] [1] []).running.length ≤ 10 := by
  have htr : Reachable env31 (initState [1]) ⟨[], [], [], [1], []⟩ :=
    Relation.ReflTransGen.head (AggStep.launch 1 [] [] [] [] [] (by simp))
      (Relation.ReflTransGen.head (AggStep.wgAdd [] [] 1 [] [] [] [])
        (Relation.ReflTransGen.single
          (AggStep.acquire [] [] [] 1 [] [] [] (by simp))))
  exact C8_concurrency_cap env31 [1] _ htr

/-- Claim C1 (refuted by the code): the returned sequence can exceed the
target count of 30.  With 31 identifiers that all fetch to eligible
stories, the schedule that lets the loop launch every goroutine before any
of them appends (each admission check still observes fewer than 30 stories)
ends with all 31 stories in the result. -/
theorem C1_counterexample :
    ∃ out, Returns env31 keys31 out ∧ 30 < out.length := by
  refine ⟨collectAll env31 keys31.reverse, returns_collectAll env31 keys31, ?_⟩
  have hall : ∀ k ∈ keys31.reverse, (taskBody env31 k).isSome = true := by
    intro k hk
    rfl
  rw [collectAll_length env31 keys31.reverse hall, List.length_reverse]
  decide

/-- Claim C1 amended: for identifier sequences of length at least 30 whose
items all fetch to eligible stories, there is a schedule (each goroutine
finishing before the next admission check) under which getStories returns
exactly 30 items, but other schedules may return more, the only general
bound being the length of the identifier sequence — the orchestrator merely
stops admitting new tasks once it observes 30 collected items. -/
theorem C1_amended (env : Env) (keys : List Int)
    (hlen : 30 ≤ keys.length)
    (hall : ∀ k ∈ keys, (taskBody env k).isSome = true) :
    (∃ out, Returns env keys out ∧ out.length = 30) ∧
    (∀ out, Returns env keys out → out.length ≤ keys.length) := by
  constructor
  · refine ⟨getStoriesSeq env keys [], returns_getStoriesSeq env keys, ?_⟩
    rw [getStoriesSeq_length env keys [] hall (by simp)]
    simp only [List.length_nil, Nat.zero_add]
    omega
  · intro out hout
    obtain ⟨s, hr, hc, he⟩ := hout
    have h1 := aggSize_reach hr
    have h2 : out.length ≤ aggSize s := by
      rw [← he]
      simp only [aggSize]
      omega
    have h3 : aggSize (initState keys) = keys.length := by
      simp [aggSize, initState]
    omega

/-- Witness for the amended C1 at 30 concrete identifiers all fetching the
same eligible story. -/
theorem C1_witness :
    (∃ out, Returns env31 keys30 out ∧ out.length = 30) ∧
    (∀ out, Returns env31 keys30 out → out.length ≤ keys30.length) :=
  C1_amended env31 keys30 (by decide) (fun k _ => rfl)

/-- Claim C5 (code bug exhibit): with a single identifier whose item
fetches successfully to an eligible story — so fewer than 30 eligible items
exist — the run can still return the empty sequence, dropping the item.
wg.Add(1) runs inside the goroutine (line 100), so wg.Wait() (line 148) can
observe a zero counter and let getStories return before the task has
registered, contrary to the documented requirement of sync.WaitGroup that Add
happen before Wait. -/
theorem C5_eligible_item_dropped :
    Returns env31 [1] [] ∧ (taskBody env31 1).isSome = true := by
  constructor
  · exact ⟨⟨[], [1], [], [], []⟩,
      Relation.ReflTransGen.single (AggStep.launch 1 [] [] [] [] [] (by simp)),
      ⟨rfl, rfl, rfl⟩, rfl⟩
  · rfl

/-- Claim C6: an individual item failure is absorbed: once the list body is
read, getStories never produces an error whatever the item fetches do; a
failed fetch contributes nothing to the result; every returned story stems
from a successful fetch of an eligible story; and the loop proceeds past a
failed key to the remaining identifiers. -/
theorem C6_item_failures_absorbed :
    (∀ (env : Env) (body : String) (r : Except String stories),
        GetStoriesBehav env (Except.ok body) r → ∃ out, r = Except.ok out) ∧
    (∀ (env : Env) (k : Int) (e : ItemFetchErr),
        env.fetchItem k = Except.error e → taskBody env k = none) ∧
    (∀ (env : Env) (keys : List Int) (out : stories),
        Returns env keys out → ∀ st ∈ out, FromFetch env st) ∧
    (∀ (env : Env) (k : Int) (ks : List Int) (acc : stories),
        taskBody env k = none → acc.length < 30 →
        getStoriesSeq env (k :: ks) acc = getStoriesSeq env ks acc) := by
  refine ⟨?_, ?_, ?_, ?_⟩
  · intro env body r h
    obtain ⟨out, _, hr⟩ := h
    exact ⟨out, hr⟩
  · intro env k e he
    simp [taskBody, he]
  · intro env keys out hout st hst
    obtain ⟨s, hr, hc, hacc⟩ := hout
    rw [← hacc] at hst
    exact provenance_reach hr st hst
  · intro env k ks acc hk hlt
    simp only [getStoriesSeq, hk, Option.toList_none, List.append_nil,
      if_neg (by omega : ¬ 30 ≤ acc.length)]

/-- Witness for C6: a key whose HTTP GET fails contributes nothing and the
loop carries on to the next identifier. -/
theorem C6_witness :
    taskBody envErr 7 = none ∧
    getStoriesSeq envErr (7 :: [8]) [] = getStoriesSeq envErr [8] [] := by
  constructor
  · exact C6_item_failures_absorbed.2.1 envErr 7 .httpErr rfl
  · exact C6_item_failures_absorbed.2.2.2 envErr 7 [8] [] rfl (by simp)

/-- Claim C10: an eligible story whose link URL fails to parse is still
appended, with its human-relative age set and its display host name left
empty: lines 137-140 only assign DomainName when url.Parse succeeds, and
the append of line 141 happens regardless. -/
theorem C10_unparsable_url_kept (env : Env) (k : Int) (s : story)
    (hf : env.fetchItem k = Except.ok s)
    (he : eligibleURL s.URL = true)
    (hp : env.parseHost s.URL = none)
    (hd : s.DomainName = "") :
    taskBody env k = some { s with HumanTime := env.humanizeTime s.Time,
                                   DomainName := "" } := by
  simp only [taskBody, hf, filterEnrich, he, if_true, enrich, hp]
  rw [hd]

/-- Witness for C10: a concrete eligible github story in an environment
where every URL parse fails. -/
theorem C10_witness :
    taskBody env31 3 = some { ghStory with
      HumanTime := env31.humanizeTime ghStory.Time, DomainName := "" } :=
  C10_unparsable_url_kept env31 3 ghStory rfl (by decide) rfl rfl

/-- Claim C2 (code bug exhibit): the shared stories slice is not safe for
concurrent append.  in Go, stories = append(stories, s) on line 141 reads the
slice and then writes back its extension; interleaving two such appends
from the empty slice — both read before either writes — completes both
appends yet leaves a single item, losing the other. -/
theorem C2_lost_append :
    Relation.ReflTransGen RaceStep
      ⟨[], .toRead ghStory, .toRead glStory⟩ ⟨[glStory], .done, .done⟩ ∧
    ([glStory] : stories).length = 1 ∧ ghStory ∉ ([glStory] : stories) := by
  refine ⟨?_, rfl, by decide⟩
  exact Relation.ReflTransGen.head (RaceStep.read1 [] ghStory (.toRead glStory))
    (Relation.ReflTransGen.head (RaceStep.read2 [] (.toWrite [] ghStory) glStory)
      (Relation.ReflTransGen.head (RaceStep.write1 [] [] ghStory (.toWrite [] glStory))
        (Relation.ReflTransGen.single (RaceStep.write2 [ghStory] .done [] glStory))))

/-- Claim C3 (refuted by the code): a list body that cannot be decoded as a
sequence of integers does NOT make the run fail.  the json.Unmarshal error on
line 74 is discarded, keys stays nil, getStories succeeds with an empty
result, and pageHandler writes that empty sequence to the cache: the
handler serves the page and a subsequent Get hits. -/
theorem C3_counterexample :
    PageHandlerBehav env31 "top" (.got (.ok "notjson")) 0 cash0
      (.html [], cacheSet cash0 "top" [] 0) ∧
    cacheGet (cacheSet cash0 "top" [] 0) "top" 0 = some [] := by
  constructor
  · exact ⟨.ok [], ⟨.ok [], ⟨[], ⟨initState [], Relation.ReflTransGen.refl,
      ⟨rfl, rfl, rfl⟩, rfl⟩, rfl⟩, rfl⟩, rfl⟩
  · decide

/-- Claim C3 amended: on a cache miss, a failure of the list HTTP request,
or of reading its body, makes the handler answer with the error and leave
the cache untouched; but a body that cannot be decoded as integers is
silently treated as an empty identifier list — the run succeeds with the
empty sequence and that empty sequence IS written to the cache. -/
theorem C3_amended :
    (∀ (env : Env) (pt : String) (now : Int) (c : TTLCache)
        (out : PageResp × TTLCache),
        cacheGet c pt now = none →
        PageHandlerBehav env pt .getFailed now c out →
        out = (.code500 ("could not get " ++ pt ++ " hacker news posts list"), c)) ∧
    (∀ (env : Env) (pt : String) (now : Int) (c : TTLCache)
        (out : PageResp × TTLCache) (e : String),
        cacheGet c pt now = none →
        PageHandlerBehav env pt (.got (.error e)) now c out →
        out = (.code500 ("could not get " ++ pt ++ " hacker news posts data"), c)) ∧
    (∀ (env : Env) (pt : String) (now : Int) (c : TTLCache)
        (out : PageResp × TTLCache) (b : String),
        cacheGet c pt now = none → env.decodeKeys b = none →
        PageHandlerBehav env pt (.got (.ok b)) now c out →
        out = (.html [], cacheSet c pt [] now)) := by
  refine ⟨?_, ?_, ?_⟩
  · intro env pt now c out hmiss h
    simp only [PageHandlerBehav, hmiss] at h
    obtain ⟨r, hr, hout⟩ := h
    simp only [GetStoriesFromTypeBehav] at hr
    subst hr
    exact hout
  · intro env pt now c out e hmiss h
    simp only [PageHandlerBehav, hmiss] at h
    obtain ⟨r, hr, hout⟩ := h
    simp only [GetStoriesFromTypeBehav] at hr
    obtain ⟨r2, hr2, hmat⟩ := hr
    simp only [GetStoriesBehav] at hr2
    subst hr2
    subst hmat
    exact hout
  · intro env pt now c out b hmiss hdec h
    simp only [PageHandlerBehav, hmiss] at h
    obtain ⟨r, hr, hout⟩ := h
    simp only [GetStoriesFromTypeBehav] at hr
    obtain ⟨r2, hr2, hmat⟩ := hr
    simp only [GetStoriesBehav] at hr2
    obtain ⟨o, ho, hr2e⟩ := hr2
    rw [hdec] at ho
    have h0 : o = [] := returns_nil env o ho
    subst h0
    subst hr2e
    subst hmat
    exact hout

/-- Witness for the amended C3: a failed list request on an empty cache at
time 0 yields the 500 with the posts-list message and the cache stays
empty. -/
theorem C3_witness :
    cacheGet cash0 "top" (0 : Int) = none ∧
    ((PageResp.code500 ("could not get " ++ "top" ++ " hacker news posts list"),
        cash0) : PageResp × TTLCache)
      = (.code500 ("could not get " ++ "top" ++ " hacker news posts list"),
        cash0) := by
  refine ⟨rfl, ?_⟩
  exact C3_amended.1 env31 "top" 0 cash0 _ rfl ⟨.error _, rfl, rfl⟩
